import Mathlib

/-!
Verification of the polynomial-mixer layer in `src/models/compom_no_selection.py`.

Tensors are shallowly embedded as nested lists of rationals: a rank-3 feature
tensor of shape (batch, seq_len, dim) becomes `List (List (List ℚ))` (batch
list of sequences of channel rows).  All torch arithmetic used by the layer
(elementwise ops, `sum`, `mean`, `einsum 'bnd,bmn->bmd'`, broadcasting along
the sequence dimension, `expand`) is translated to exact rational arithmetic.

The GELU activation (`F.gelu`, supplied by torch, external to this repository)
is transcendental; every definition takes it as an explicit scalar parameter
`act : ℚ → ℚ`.  All properties proved below hold for an arbitrary activation,
and all counter-evaluations instantiate it concretely.

Fallible tensor operations (torch runtime shape errors: broadcasting mismatch,
`expand` mismatch, the explicit `ValueError` for unsupported mask ranks) are
modelled with `Option`/`Except String`.
-/

/-- Rank-3 tensor of shape (batch, seq_len, dim). -/
abbrev T3 := List (List (List ℚ))

/-- The epsilon `1.e-7` used by both mask mixers. -/
def eps : ℚ := 1 / 10000000

/-- Elementwise vector addition (matching shapes at every use site). -/
def vecAdd (a b : List ℚ) : List ℚ := List.zipWith (· + ·) a b

/-- Sum of a list of equal-length vectors (torch `sum(dim=1)` over a nonempty
sequence axis; the empty case yields the empty row). -/
def vecSum : List (List ℚ) → List ℚ
  | [] => []
  | v :: vs =>
    match vs with
    | [] => v
    | _ :: _ => vecAdd v (vecSum vs)

/-- Per-scalar core of `po2` (source lines 18-32): for input value `v` with
coefficient row `c`, computes `h = gelu(v)`, `h2 = h*h`, concatenates and
contracts with the coefficients: `(cat [h, h2] * c).sum(-1)`. -/
def cell2 (act : ℚ → ℚ) (v : ℚ) (c : List ℚ) : ℚ :=
  let h := act v
  let h2 := h * h
  (List.zipWith (· * ·) [h, h2] c).sum

/-- Per-scalar core of `po3` (source lines 34-49): powers `h, h², h³` by
repeated multiplication, contracted with the coefficient row. -/
def cell3 (act : ℚ → ℚ) (v : ℚ) (c : List ℚ) : ℚ :=
  let h := act v
  let h2 := h * h
  let h3 := h2 * h
  (List.zipWith (· * ·) [h, h2, h3] c).sum

/-- Per-scalar core of `po4` (source lines 51-67): powers `h, h², h³, h⁴` by
repeated multiplication, contracted with the coefficient row. -/
def cell4 (act : ℚ → ℚ) (v : ℚ) (c : List ℚ) : ℚ :=
  let h := act v
  let h2 := h * h
  let h3 := h2 * h
  let h4 := h3 * h
  (List.zipWith (· * ·) [h, h2, h3, h4] c).sum

/-- Per-scalar core of the generic expansion path (source line 128-130):
`torch.cat([h ** i for i in range(k)], dim=-1)` contracted with the
coefficient row.  Note the source's `range(k)` yields exponents `0 .. k-1`. -/
def cellGen (act : ℚ → ℚ) (k : ℕ) (v : ℚ) (c : List ℚ) : ℚ :=
  let h := act v
  (List.zipWith (· * ·) ((List.range k).map (fun i => h ^ i)) c).sum

/-- `po2` (source lines 18-32), lifted over the (batch, seq, dim) tensor: the
torch broadcast `(h * coeff).sum(-1)` pairs channel `d` with coefficient row
`coeff[d]`, which the `zipWith` over the channel row realises. -/
def po2 (act : ℚ → ℚ) (x : T3) (coeff : List (List ℚ)) : T3 :=
  x.map (fun xb => xb.map (fun row => List.zipWith (cell2 act) row coeff))

/-- `po3` (source lines 34-49) over the full tensor. -/
def po3 (act : ℚ → ℚ) (x : T3) (coeff : List (List ℚ)) : T3 :=
  x.map (fun xb => xb.map (fun row => List.zipWith (cell3 act) row coeff))

/-- `po4` (source lines 51-67) over the full tensor. -/
def po4 (act : ℚ → ℚ) (x : T3) (coeff : List (List ℚ)) : T3 :=
  x.map (fun xb => xb.map (fun row => List.zipWith (cell4 act) row coeff))

/-- Generic expansion path (source lines 126-130) over the full tensor. -/
def poGeneric (act : ℚ → ℚ) (x : T3) (coeff : List (List ℚ)) (k : ℕ) : T3 :=
  x.map (fun xb => xb.map (fun row => List.zipWith (cellGen act k) row coeff))

/-- Row-level view of the order dispatch, used to state structural lemmas. -/
def poRow (act : ℚ → ℚ) (coeff : List (List ℚ)) (k : ℕ) (row : List ℚ) : List ℚ :=
  if k = 2 then List.zipWith (cell2 act) row coeff
  else if k = 3 then List.zipWith (cell3 act) row coeff
  else if k = 4 then List.zipWith (cell4 act) row coeff
  else List.zipWith (cellGen act k) row coeff

/-- The order dispatch at the head of `polynomial_aggregation_`
(source lines 119-130): closed forms for k = 2, 3, 4, generic otherwise. -/
def poK (act : ℚ → ℚ) (x : T3) (coeff : List (List ℚ)) (k : ℕ) : T3 :=
  if k = 2 then po2 act x coeff
  else if k = 3 then po3 act x coeff
  else if k = 4 then po4 act x coeff
  else poGeneric act x coeff k

/-- Mean over the sequence axis with `keepdims=True`
(source line 134: `h.mean(dim=1, keepdims=True)`). -/
def meanRows (rows : List (List ℚ)) : List ℚ :=
  (vecSum rows).map (fun s => s / (rows.length : ℚ))

/-- `meanDim1 h` is `h.mean(dim=1, keepdims=True)`. -/
def meanDim1 (h : T3) : T3 := h.map (fun hb => [meanRows hb])

/-- Per-batch core of `mask_mixer` (source lines 73-84): numerator
`(h * mask.unsqueeze(-1)).sum(dim=1)`, denominator `1e-7 + mask.sum(dim=1)`. -/
def mmRow (hb : List (List ℚ)) (mb : List ℚ) : List ℚ :=
  (vecSum (List.zipWith (fun row w => row.map (fun v => v * w)) hb mb)).map
    (fun s => s / (eps + mb.sum))

/-- `mask_mixer` (source lines 73-84): 2D mask, output shape (batch, 1, dim). -/
def mask_mixer (h : T3) (mask : List (List ℚ)) : T3 :=
  List.zipWith (fun hb mb => [mmRow hb mb]) h mask

/-- Per-(batch, query) core of `full_mask_mixer` (source lines 86-100):
`einsum('bnd,bmn->bmd')` row `m` divided by `1e-7 + mask.sum(dim=2)`. -/
def fmRow (hb : List (List ℚ)) (mrow : List ℚ) : List ℚ :=
  (vecSum (List.zipWith (fun row w => row.map (fun v => v * w)) hb mrow)).map
    (fun s => s / (eps + mrow.sum))

/-- `full_mask_mixer` (source lines 86-100): 3D mask, output
shape (batch, query_len, dim). -/
def full_mask_mixer (h : T3) (mask : List (List (List ℚ))) : T3 :=
  List.zipWith (fun hb mb => mb.map (fun mrow => fmRow hb mrow)) h mask

/-- Optional attention mask: the source accepts tensors of any rank and
dispatches on `mask.dim()`; ranks 1 and 4 are carried to witness the
unsupported-rank branch. -/
inductive Mask where
  | m1 (m : List ℚ)
  | m2 (m : List (List ℚ))
  | m3 (m : List (List (List ℚ)))
  | m4 (m : List (List (List (List ℚ))))
deriving DecidableEq

/-- `mask.dim()`. -/
def Mask.dim : Mask → ℕ
  | .m1 _ => 1
  | .m2 _ => 2
  | .m3 _ => 3
  | .m4 _ => 4

/-- torch `Tensor.expand` along the sequence dimension: a size may stay equal
or be expanded from 1; any other mismatch is a runtime error (`none`). -/
def expandRows (rows : List (List ℚ)) (n : ℕ) : Option (List (List ℚ)) :=
  if rows.length = n then some rows
  else
    match rows with
    | [r] => some (List.replicate n r)
    | _ => none

/-- `h.expand(x.shape)` (source line 142), batch by batch. -/
def expandLike : T3 → T3 → Option T3
  | [], [] => some []
  | hb :: hs, xb :: xs =>
    match expandRows hb xb.length, expandLike hs xs with
    | some rb, some rs => some (rb :: rs)
    | _, _ => none
  | _, _ => none

/-- `h.expand(x.shape)` with the torch runtime error made explicit. -/
def expandOr (h x : T3) : Except String T3 :=
  match expandLike h x with
  | some r => Except.ok r
  | none =>
    Except.error "The expanded size of the tensor must match the existing size at non-singleton dimension 1"

/-- `polynomial_aggregation_` (source lines 106-142): order dispatch, then
mask dispatch on `mask.dim()` (2D mixer / 3D mixer / `ValueError` for other
ranks), then `h.expand(x.shape)`. -/
def polynomial_aggregation_ (act : ℚ → ℚ) (x : T3) (coeff : List (List ℚ)) (k : ℕ)
    (mask : Option Mask) : Except String T3 :=
  let h := poK act x coeff k
  match mask with
  | none => expandOr (meanDim1 h) x
  | some (Mask.m2 m) => expandOr (mask_mixer h m) x
  | some (Mask.m3 m) => expandOr (full_mask_mixer h m) x
  | some m =>
    Except.error ("Unsupported mask dimension: " ++ toString m.dim ++ ". Expected 2, 3, or None.")

/-- `pom` (source lines 148-164): delegates to `polynomial_aggregation_`. -/
def pom (act : ℚ → ℚ) (xc : T3) (coeff : List (List ℚ)) (k : ℕ)
    (mask : Option Mask) : Except String T3 :=
  polynomial_aggregation_ act xc coeff k mask

/-- Dot product used by the linear projections. -/
def dot (a b : List ℚ) : ℚ := (List.zipWith (· * ·) a b).sum

/-- `nn.Linear`: weight rows are output features, applied per position. -/
structure Linear where
  weight : List (List ℚ)
  bias : List ℚ
deriving DecidableEq

/-- Apply a linear projection to every position of a rank-3 tensor. -/
def Linear.apply (L : Linear) (x : T3) : T3 :=
  x.map (fun xb => xb.map (fun row => List.zipWith (fun wrow b => dot wrow row + b) L.weight L.bias))

/-- The `ComPoM` module (source lines 170-207): projections, coefficients,
polynomial order. -/
structure ComPoM where
  dim : ℕ
  order : ℕ
  order_expand : ℕ
  po_proj : Linear
  po_coeff : List (List ℚ)
  ag_proj : Linear
deriving DecidableEq

/-- Streaming state dict `{'h': ..., 'n': ...}` of `state_forward`. -/
structure PState where
  h : T3
  n : ℕ
deriving DecidableEq

/-- `ComPoM.forward` (source lines 209-227): context defaults to the query,
input projection, `pom`, output projection. -/
def ComPoM.forward (M : ComPoM) (act : ℚ → ℚ) (xq : T3) (xc : Option T3)
    (mask : Option Mask) : Except String T3 :=
  let c := xc.getD xq
  let h := M.po_proj.apply c
  match pom act h M.po_coeff M.order mask with
  | Except.ok sh => Except.ok (M.ag_proj.apply sh)
  | Except.error e => Except.error e

/-- Scalar multiple of a tensor (`n_past * h_past`). -/
def smulT (c : ℚ) (x : T3) : T3 :=
  x.map (fun b => b.map (fun r => r.map (fun v => c * v)))

/-- Tensor divided by a scalar (`/ (n_past + n_current)`). -/
def divT (x : T3) (c : ℚ) : T3 :=
  x.map (fun b => b.map (fun r => r.map (fun v => v / c)))

/-- torch broadcasting addition along the sequence dimension for one batch
element: sizes must match or one side must be a singleton. -/
def addB (a b : List (List ℚ)) : Option (List (List ℚ)) :=
  if a.length = b.length then some (List.zipWith vecAdd a b)
  else
    match a, b with
    | [ra], _ => some (b.map (fun rb => vecAdd ra rb))
    | _, [rb] => some (a.map (fun ra => vecAdd ra rb))
    | _, _ => none

/-- Broadcasting addition of two rank-3 tensors (batch sizes match at every
use site; the sequence dimension may broadcast, else a runtime error). -/
def tAdd : T3 → T3 → Option T3
  | [], [] => some []
  | a :: xs, b :: ys =>
    match addB a b, tAdd xs ys with
    | some c, some cs => some (c :: cs)
    | _, _ => none
  | _, _ => none

/-- `shape[1]` of a rank-3 tensor. -/
def seqLen : T3 → ℕ
  | [] => 0
  | b :: _ => b.length

/-- `ComPoM.state_forward` (source lines 229-258): chunk aggregate with
`mask=None`, `n_current = h_current.shape[1]`, running-mean merge with the
prior state, output projection of the merged aggregate. -/
def ComPoM.state_forward (M : ComPoM) (act : ℚ → ℚ) (xq : T3) (xc : Option T3)
    (state : Option PState) : Except String (T3 × PState) :=
  let c := xc.getD xq
  let cp := M.po_proj.apply c
  match polynomial_aggregation_ act cp M.po_coeff M.order none with
  | Except.error e => Except.error e
  | Except.ok h_current =>
    let n_current := seqLen h_current
    match state with
    | some s =>
      match tAdd (smulT (s.n : ℚ) s.h) (smulT (n_current : ℚ) h_current) with
      | some num =>
        let h := divT num ((s.n : ℚ) + (n_current : ℚ))
        Except.ok (M.ag_proj.apply h, ⟨h, s.n + n_current⟩)
      | none =>
        Except.error "The size of tensor a must match the size of tensor b at non-singleton dimension 1"
    | none => Except.ok (M.ag_proj.apply h_current, ⟨h_current, 0 + n_current⟩)

/-- Thread `state_forward` over successive context chunks, starting from an
optional prior state (each chunk is passed as the context). -/
def runStream (M : ComPoM) (act : ℚ → ℚ) : Option PState → List T3 → Except String (Option PState)
  | st, [] => Except.ok st
  | st, c :: cs =>
    match M.state_forward act c (some c) st with
    | Except.error e => Except.error e
    | Except.ok (_, st') => runStream M act (some st') cs

/-- Count stored in an optional streaming state (`n_past = 0` when absent). -/
def countOf : Option PState → ℕ
  | none => 0
  | some s => s.n

/-- A concrete module with identity projections, dim 1, order 2, expand 1,
coefficients selecting the linear term, used for concrete evaluations. -/
def M0 : ComPoM :=
  { dim := 1, order := 2, order_expand := 1,
    po_proj := ⟨[[1]], [0]⟩, po_coeff := [[1, 0]], ag_proj := ⟨[[1]], [0]⟩ }

/-! ### Structural lemmas -/

/-- The order dispatch is a per-row map for every order. -/
theorem poK_eq_map (act : ℚ → ℚ) (x : T3) (coeff : List (List ℚ)) (k : ℕ) :
    poK act x coeff k = x.map (fun xb => xb.map (poRow act coeff k)) := by
  by_cases h2 : k = 2
  · simp [poK, poRow, po2, h2]
  · by_cases h3 : k = 3
    · simp [poK, poRow, po3, h2, h3]
    · by_cases h4 : k = 4
      · simp [poK, poRow, po4, h2, h3, h4]
      · simp [poK, poRow, poGeneric, h2, h3, h4]

/-- Expanding a singleton sequence axis always succeeds and replicates. -/
theorem expandRows_single (r : List ℚ) (n : ℕ) :
    expandRows [r] n = some (List.replicate n r) := by
  unfold expandRows
  by_cases h : [r].length = n
  · rw [if_pos h]
    simp only [List.length_singleton] at h
    subst h
    rfl
  · rw [if_neg h]

/-- `expandLike` on per-batch singletons replicates each row to the target
batch element's sequence length. -/
theorem expandLike_map_single (x : T3) (t : List (List ℚ) → List ℚ) :
    expandLike (x.map (fun xb => [t xb])) x
      = some (x.map (fun xb => List.replicate xb.length (t xb))) := by
  induction x with
  | nil => rfl
  | cons xb xs ih => simp [expandLike, expandRows_single, ih]

/-- `zipWith` over two maps of the same list collapses to a single map. -/
theorem zipWith_map_same {α β γ δ : Type} (f : β → γ → δ) (g : α → β) (h : α → γ)
    (l : List α) : List.zipWith f (l.map g) (l.map h) = l.map (fun a => f (g a) (h a)) := by
  induction l with
  | nil => rfl
  | cons a l ih => simp [ih]

/-- `meanDim1` after a per-row map. -/
theorem meanDim1_map (x : T3) (g : List ℚ → List ℚ) :
    meanDim1 (x.map (fun xb => xb.map g)) = x.map (fun xb => [meanRows (xb.map g)]) := by
  simp [meanDim1, List.map_map]

/-- Closed form of the mask-free aggregation: per batch element, the
sequence mean of the expanded features, replicated to the sequence length. -/
theorem aggNone_eq (act : ℚ → ℚ) (x : T3) (coeff : List (List ℚ)) (k : ℕ) :
    polynomial_aggregation_ act x coeff k none
      = Except.ok (x.map (fun xb =>
          List.replicate xb.length (meanRows (xb.map (poRow act coeff k))))) := by
  show expandOr (meanDim1 (poK act x coeff k)) x = _
  rw [poK_eq_map, meanDim1_map]
  unfold expandOr
  rw [expandLike_map_single]

/-- Multiplying each row by an all-ones weight vector is the identity. -/
theorem zip_ones_eq {α : Type} (rows : List (List ℚ)) (xb : List α)
    (hl : rows.length = xb.length) :
    List.zipWith (fun row w => row.map (fun v => v * w)) rows (xb.map (fun _ => (1:ℚ)))
      = rows := by
  induction rows generalizing xb with
  | nil => rfl
  | cons r rs ih =>
    cases xb with
    | nil => simp at hl
    | cons a l =>
      simp only [List.length_cons] at hl
      have hl2 : rs.length = l.length := by omega
      rw [List.map_cons, List.zipWith_cons_cons, ih l hl2]
      simp [mul_one]

/-- The sum of an all-ones mask row is the sequence length. -/
theorem sum_ones {α : Type} (xb : List α) : (xb.map (fun _ => (1:ℚ))).sum = xb.length := by
  induction xb with
  | nil => simp
  | cons a l ih => simp [ih, add_comm]

/-- The all-ones 2D mask mixing reduces to a plain scaled sequence sum. -/
theorem mmRow_ones (g : List ℚ → List ℚ) (xb : List (List ℚ)) :
    mmRow (xb.map g) (xb.map (fun _ => (1:ℚ)))
      = (vecSum (xb.map g)).map (fun s => s / (eps + (xb.length : ℚ))) := by
  unfold mmRow
  rw [zip_ones_eq _ _ (by simp), sum_ones]

/-- Replicating to each batch element's length preserves `shape[1]`. -/
theorem seqLen_map_replicate (y : T3) (t : List (List ℚ) → List ℚ) :
    seqLen (y.map (fun xb => List.replicate xb.length (t xb))) = seqLen y := by
  cases y <;> simp [seqLen]

/-- A per-row map preserves `shape[1]`. -/
theorem seqLen_map_rows (x : T3) (f : List ℚ → List ℚ) :
    seqLen (x.map (fun xb => xb.map f)) = seqLen x := by
  cases x <;> simp [seqLen]

/-- Linear projections preserve `shape[1]`. -/
theorem seqLen_linear (L : Linear) (x : T3) : seqLen (L.apply x) = seqLen x :=
  seqLen_map_rows x _

/-- Mask-free aggregation preserves `shape[1]`. -/
theorem seqLen_aggNone (act : ℚ → ℚ) (x : T3) (coeff : List (List ℚ)) (k : ℕ) (h : T3)
    (hok : polynomial_aggregation_ act x coeff k none = Except.ok h) :
    seqLen h = seqLen x := by
  rw [aggNone_eq] at hok
  cases hok
  cases x <;> simp [seqLen]

/-- The source's state update adds the chunk's sequence length to the count. -/
theorem state_forward_count (M : ComPoM) (act : ℚ → ℚ) (xq : T3) (xc : Option T3)
    (st : Option PState) (out : T3) (st' : PState)
    (hok : M.state_forward act xq xc st = Except.ok (out, st')) :
    st'.n = countOf st + seqLen (xc.getD xq) := by
  unfold ComPoM.state_forward at hok
  simp only [aggNone_eq] at hok
  have hlen : seqLen ((M.po_proj.apply (xc.getD xq)).map
      (fun xb => List.replicate xb.length (meanRows (xb.map (poRow act M.po_coeff M.order)))))
      = seqLen (xc.getD xq) := by
    rw [seqLen_map_replicate, seqLen_linear]
  split at hok
  · split at hok
    · injection hok with hok
      injection hok with hok1 hok2
      rw [← hok2]
      simp [countOf, hlen]
    · simp at hok
  · injection hok with hok
    injection hok with hok1 hok2
    rw [← hok2]
    simp [countOf, hlen]

/-- Streaming the chunks accumulates the chunk lengths into the count. -/
theorem runStream_count (M : ComPoM) (act : ℚ → ℚ) (cs : List T3)
    (st0 st1 : Option PState) (hok : runStream M act st0 cs = Except.ok st1) :
    countOf st1 = countOf st0 + (cs.map seqLen).sum := by
  induction cs generalizing st0 with
  | nil =>
    unfold runStream at hok
    cases hok
    simp
  | cons c cs ih =>
    unfold runStream at hok
    rcases hsf : M.state_forward act c (some c) st0 with e | ⟨o, st'⟩
    · rw [hsf] at hok
      cases hok
    · rw [hsf] at hok
      have hn := state_forward_count M act c (some c) st0 o st' hsf
      have := ih (some st') hok
      simp only [countOf] at this hn ⊢
      rw [this, hn]
      simp [add_assoc]

/-- Unfolding equation for `vecSum` on a two-or-more element list. -/
theorem vecSum_cons_cons (v w : List ℚ) (vs : List (List ℚ)) :
    vecSum (v :: w :: vs) = vecAdd v (vecSum (w :: vs)) := rfl

/-- Adding two zero rows gives a zero row. -/
theorem vecAdd_zero (D : ℕ) :
    vecAdd (List.replicate D (0:ℚ)) (List.replicate D 0) = List.replicate D 0 := by
  unfold vecAdd
  induction D with
  | zero => rfl
  | succ n ih => simp [List.replicate_succ, ih]

/-- Summing one or more zero rows gives a zero row. -/
theorem vecSum_replicate_zero (n D : ℕ) :
    vecSum (List.replicate (n + 1) (List.replicate D (0:ℚ))) = List.replicate D 0 := by
  induction n with
  | zero => rfl
  | succ p ih =>
    rw [List.replicate_succ, List.replicate_succ, vecSum_cons_cons, ← List.replicate_succ, ih]
    exact vecAdd_zero D

/-- Weighting rows of width `D` by all-zero weights yields zero rows. -/
theorem zip_scale_zero (hb : List (List ℚ)) (mb : List ℚ) (D : ℕ)
    (hlen : ∀ r ∈ hb, r.length = D) (hz : ∀ w ∈ mb, w = 0) :
    List.zipWith (fun row w => row.map (fun v => v * w)) hb mb
      = List.replicate (min hb.length mb.length) (List.replicate D (0:ℚ)) := by
  induction hb generalizing mb with
  | nil => simp
  | cons r rs ih =>
    cases mb with
    | nil => simp
    | cons w ws =>
      have hw : w = 0 := hz w (List.mem_cons_self w ws)
      have hr : r.length = D := hlen r (List.mem_cons_self r rs)
      rw [List.zipWith_cons_cons, hw]
      rw [ih ws (fun a ha => hlen a (List.mem_cons_of_mem r ha))
        (fun a ha => hz a (List.mem_cons_of_mem w ha))]
      rw [show r.map (fun v => v * (0:ℚ)) = List.replicate D 0 from ?_]
      · simp [Nat.succ_min_succ, List.replicate_succ]
      · rw [← hr]
        simp [mul_zero]

/-- The 2D mask-mix of a batch row under an all-zero mask row is exactly the
zero vector: the numerator is a sum of zero-weighted rows, the denominator
the epsilon. -/
theorem mmRow_zero (hb : List (List ℚ)) (mb : List ℚ) (D : ℕ)
    (hlen : ∀ r ∈ hb, r.length = D) (hz : ∀ w ∈ mb, w = 0)
    (hne : hb ≠ []) (hml : mb.length = hb.length) :
    mmRow hb mb = List.replicate D (0:ℚ) := by
  unfold mmRow
  rw [zip_scale_zero hb mb D hlen hz, hml, min_self]
  rw [List.sum_eq_zero hz]
  obtain ⟨b, bs, rfl⟩ : ∃ b bs, hb = b :: bs := by
    cases hb with
    | nil => exact absurd rfl hne
    | cons b bs => exact ⟨b, bs, rfl⟩
  rw [show (b :: bs).length = bs.length + 1 from rfl, vecSum_replicate_zero]
  simp

/-! ### Claims -/

/-- Claim C1: FALSIFIED on the code — the specialized closed-form expansion
and the generic loop-based expansion are NOT numerically equivalent for
k = 2: the generic path contracts against powers h⁰..h^(k-1) (the source's
`range(k)`) while `po2` contracts against h¹..h^k. At activation value 2
with coefficient row [0, 1] the closed form yields 4 and the generic path
yields 2, a relative gap of 0.5, far beyond the claimed 1e-5 tolerance. -/
theorem C1_po2_generic_diverge :
    po2 (fun q => q) [[[2]]] [[0, 1]] = [[[4]]] ∧
    poGeneric (fun q => q) [[[2]]] [[0, 1]] 2 = [[[2]]] ∧
    po2 (fun q => q) [[[2]]] [[0, 1]] ≠ poGeneric (fun q => q) [[[2]]] [[0, 1]] 2 := by
  refine ⟨?_, ?_, ?_⟩ <;> norm_num [po2, poGeneric, cell2, cellGen, List.range_succ]

/-- Claim C2: FALSIFIED on the code — streaming two chunks of lengths
n1 = 2 and n2 = 3 through `state_forward` does not succeed: the chunk
aggregate is expanded back to chunk length before being stored in the
state, so the merge `n_past*h_past + n_current*h_current` adds tensors of
sequence lengths 2 and 3 and raises a broadcasting error, while the
one-shot aggregation over the concatenated 5-position sequence succeeds
(module `M0` has identity projections and coefficients selecting the
linear term, so the one-shot aggregate is the plain mean 9/5). -/
theorem C2_streaming_mismatched_chunks_fail :
    runStream M0 (fun q => q) none [[[[1], [2]]], [[[1], [2], [3]]]]
      = Except.error "The size of tensor a must match the size of tensor b at non-singleton dimension 1" ∧
    M0.forward (fun q => q) [[[0]]] (some [[[1], [2], [1], [2], [3]]]) none
      = Except.ok [[[9/5], [9/5], [9/5], [9/5], [9/5]]] := by
  constructor
  · norm_num [runStream, M0, ComPoM.state_forward, polynomial_aggregation_, poK, po2,
      cell2, Linear.apply, dot, meanDim1, meanRows, vecSum, vecAdd, expandOr, expandLike,
      expandRows, seqLen, tAdd, addB, smulT, divT, List.replicate_succ]
  · norm_num [M0, ComPoM.forward, pom, polynomial_aggregation_, poK, po2, cell2,
      Linear.apply, dot, meanDim1, meanRows, vecSum, vecAdd, expandOr, expandLike,
      expandRows, List.replicate_succ]

/-- Claim C3: FALSIFIED on the code — the generic expansion path includes
the power h⁰ and stops at h^(k-1), not h¹..h^k: with coefficients selecting
only the first degree slot, the result is the constant 1 (the h⁰ term)
regardless of the input (here at activation values 0 and 7 for k = 5),
whereas powers starting at h¹ would give 0 and 7 respectively. -/
theorem C3_generic_includes_power_zero :
    poGeneric (fun q => q) [[[0]]] [[1, 0, 0, 0, 0]] 5 = [[[1]]] ∧
    poGeneric (fun q => q) [[[7]]] [[1, 0, 0, 0, 0]] 5 = [[[1]]] := by
  constructor <;> norm_num [poGeneric, cellGen, List.range_succ]

/-- Claim C4: FALSIFIED on the code — with a rank-3 mask whose query length
(3) differs from the sequence length (2), `full_mask_mixer` itself computes
the claimed per-query weighted means, but `polynomial_aggregation_` then
unconditionally runs `h.expand(x.shape)`, which fails because the
(batch, 3, dim) result cannot be expanded to the (batch, 2, dim) input
shape; no (batch, query_length, dim) output is returned. -/
theorem C4_cross_mask_expand_fails :
    pom (fun q => q) [[[1], [2]]] [[1, 0]] 2 (some (Mask.m3 [[[1, 0], [0, 1], [1, 1]]]))
      = Except.error "The expanded size of the tensor must match the existing size at non-singleton dimension 1" ∧
    full_mask_mixer [[[1], [2]]] [[[1, 0], [0, 1], [1, 1]]]
      = [[[10000000/10000001], [20000000/10000001], [30000000/20000001]]] := by
  constructor
  · norm_num [pom, polynomial_aggregation_, poK, po2, cell2, full_mask_mixer, fmRow,
      vecSum, vecAdd, expandOr, expandLike, expandRows, eps]
  · norm_num [full_mask_mixer, fmRow, vecSum, vecAdd, eps]

/-- Claim C5: FALSIFIED on the code — after one `state_forward` call on a
chunk of sequence length 2, both the returned output and the stored state
aggregate have sequence length 2, not 1: the chunk aggregate is broadcast
back to the chunk length by `h.expand(x.shape)` inside the aggregation
before being stored and projected. -/
theorem C5_state_shapes_follow_chunk_length :
    M0.state_forward (fun q => q) [[[1], [2]]] (some [[[1], [2]]]) none
      = Except.ok ([[[3/2], [3/2]]], ⟨[[[3/2], [3/2]]], 2⟩) ∧
    seqLen [[[(3:ℚ)/2], [(3:ℚ)/2]]] = 2 := by
  constructor
  · norm_num [M0, ComPoM.state_forward, polynomial_aggregation_, poK, po2, cell2,
      Linear.apply, dot, meanDim1, meanRows, vecSum, vecAdd, expandOr, expandLike,
      expandRows, seqLen, List.replicate_succ]
  · rfl

/-- Claim C6: for every mask whose rank is neither 2 nor 3, aggregation
returns the explicit `Unsupported mask dimension` error naming the
offending rank, and produces no aggregation result. -/
theorem C6_unsupported_mask_rank (act : ℚ → ℚ) (x : T3) (coeff : List (List ℚ)) (k : ℕ)
    (m : Mask) (h2 : m.dim ≠ 2) (h3 : m.dim ≠ 3) :
    polynomial_aggregation_ act x coeff k (some m)
      = Except.error ("Unsupported mask dimension: " ++ toString m.dim ++ ". Expected 2, 3, or None.") := by
  cases m with
  | m1 m => rfl
  | m2 m => exact absurd rfl h2
  | m3 m => exact absurd rfl h3
  | m4 m => rfl

/-- Witness for C6 at a concrete rank-1 mask. -/
theorem C6_unsupported_mask_rank_witness :
    polynomial_aggregation_ (fun q => q) [[[1]]] [[1, 0]] 2 (some (Mask.m1 [1]))
      = Except.error ("Unsupported mask dimension: " ++ toString (Mask.m1 [1]).dim ++ ". Expected 2, 3, or None.") :=
  C6_unsupported_mask_rank (fun q => q) [[[1]]] [[1, 0]] 2 (Mask.m1 [1])
    (by decide) (by decide)

/-- Claim C7: every successful sequence of `state_forward` calls threading
the returned state accumulates the chunk sequence lengths into the final
count (the first call, from no prior state, sets the count to the chunk
length). -/
theorem C7_streaming_count (M : ComPoM) (act : ℚ → ℚ) (cs : List T3) (st : PState)
    (hok : runStream M act none cs = Except.ok (some st)) :
    st.n = (cs.map seqLen).sum := by
  have h := runStream_count M act cs none (some st) hok
  simpa [countOf] using h

/-- Witness for C7: two chunks of length 2 accumulate a count of 4. -/
theorem C7_streaming_count_witness :
    (⟨[[[5/2], [5/2]]], 4⟩ : PState).n
      = (([[[[1], [2]]], [[[3], [4]]]] : List T3).map seqLen).sum :=
  C7_streaming_count M0 (fun q => q) [[[[1], [2]]], [[[3], [4]]]] ⟨[[[5/2], [5/2]]], 4⟩
    (by norm_num [runStream, M0, ComPoM.state_forward, polynomial_aggregation_, poK, po2,
      cell2, Linear.apply, dot, meanDim1, meanRows, vecSum, vecAdd, expandOr, expandLike,
      expandRows, seqLen, tAdd, addB, smulT, divT, List.replicate_succ])

/-- Claim C8, counterexample: aggregation under the all-ones 2D mask does
NOT equal aggregation with mask=None — the former divides by N + 1e-7, the
latter by N (here 1/(1 + 1e-7) versus 1). -/
theorem C8_mask_none_vs_ones_counterexample :
    polynomial_aggregation_ (fun q => q) [[[1]]] [[1, 0]] 2 (some (Mask.m2 [[1]]))
      ≠ polynomial_aggregation_ (fun q => q) [[[1]]] [[1, 0]] 2 none := by
  norm_num [polynomial_aggregation_, poK, po2, cell2, mask_mixer, mmRow, meanDim1,
    meanRows, vecSum, vecAdd, expandOr, expandLike, expandRows, eps]

/-- Claim C8 (amended): for an input of uniform sequence length N > 0, the
all-ones 2D mask aggregation equals the mask=None aggregation scaled by
N/(N + 1e-7) — approximately, not exactly, the unweighted mean. -/
theorem C8_ones_mask_eq_scaled_mean (act : ℚ → ℚ) (coeff : List (List ℚ)) (k N : ℕ)
    (x : T3) (hN : 0 < N) (hu : ∀ b ∈ x, b.length = N) :
    polynomial_aggregation_ act x coeff k
        (some (Mask.m2 (x.map (fun b => b.map (fun _ => (1:ℚ))))))
      = Except.map (smulT ((N : ℚ) / ((N : ℚ) + eps)))
          (polynomial_aggregation_ act x coeff k none) := by
  have hN0 : (N : ℚ) ≠ 0 := Nat.cast_ne_zero.mpr hN.ne'
  have hNe : (N : ℚ) + eps ≠ 0 := by
    have h1 : (0:ℚ) < eps := by norm_num [eps]
    have h2 : (0:ℚ) ≤ (N:ℚ) := Nat.cast_nonneg N
    linarith
  rw [aggNone_eq]
  show expandOr (mask_mixer (poK act x coeff k) (x.map (fun b => b.map (fun _ => (1:ℚ))))) x = _
  rw [poK_eq_map]
  unfold mask_mixer
  rw [zipWith_map_same]
  unfold expandOr
  rw [expandLike_map_single]
  simp only [Except.map]
  refine congrArg Except.ok ?_
  unfold smulT
  rw [List.map_map]
  refine List.map_congr_left (fun xb hxb => ?_)
  have hbN : xb.length = N := hu xb hxb
  simp only [Function.comp, List.map_replicate]
  rw [mmRow_ones]
  unfold meanRows
  rw [List.length_map, hbN]
  rw [List.map_map]
  refine congrArg _ ?_
  refine List.map_congr_left (fun s _ => ?_)
  show s / (eps + (N:ℚ)) = ((N:ℚ)/((N:ℚ)+eps)) * (s / (N:ℚ))
  have hNe2 : eps + (N:ℚ) ≠ 0 := by rw [add_comm]; exact hNe
  rw [div_mul_div_comm, div_eq_div_iff hNe2 (mul_ne_zero hNe hN0)]
  ring

/-- Witness for the amended C8 at a concrete one-position input. -/
theorem C8_ones_mask_eq_scaled_mean_witness :
    polynomial_aggregation_ (fun q => q) [[[1]]] [[1, 0]] 2
        (some (Mask.m2 (([[[1]]] : T3).map (fun b => b.map (fun _ => (1:ℚ))))))
      = Except.map (smulT (((1:ℕ) : ℚ) / (((1:ℕ) : ℚ) + eps)))
          (polynomial_aggregation_ (fun q => q) [[[1]]] [[1, 0]] 2 none) :=
  C8_ones_mask_eq_scaled_mean (fun q => q) [[1, 0]] 2 1 [[[1]]] (by decide) (by simp)

/-- Claim C9: when a context is supplied, neither `forward` nor
`state_forward` depends on the query argument: two runs with different
queries and the same context, mask and state produce identical outputs and
identical new state. -/
theorem C9_query_noninterference (M : ComPoM) (act : ℚ → ℚ) (xq1 xq2 xc : T3)
    (mask : Option Mask) (st : Option PState) :
    M.forward act xq1 (some xc) mask = M.forward act xq2 (some xc) mask ∧
    M.state_forward act xq1 (some xc) st = M.state_forward act xq2 (some xc) st :=
  ⟨rfl, rfl⟩

/-- Claim C10: for any batch row whose 2D mask row is entirely zero (over a
nonempty sequence of width-D rows), the mask-weighted reducer succeeds and
returns exactly the zero vector for that batch row: the numerator is a sum
of zero-weighted rows and the denominator is the epsilon 1e-7. -/
theorem C10_zero_mask_row_zero_aggregate (h : T3) (mask : List (List ℚ)) (b D : ℕ)
    (hb : List (List ℚ)) (mb : List ℚ)
    (hhb : h.get? b = some hb) (hmb : mask.get? b = some mb)
    (hz : ∀ w ∈ mb, w = 0) (hlen : ∀ r ∈ hb, r.length = D)
    (hne : hb ≠ []) (hml : mb.length = hb.length) :
    (mask_mixer h mask).get? b = some [List.replicate D (0:ℚ)] := by
  unfold mask_mixer
  rw [List.get?_zipWith_eq_some]
  exact ⟨hb, mb, hhb, hmb, by rw [mmRow_zero hb mb D hlen hz hne hml]⟩

/-- Witness for C10 at a concrete zero mask row. -/
theorem C10_zero_mask_row_zero_aggregate_witness :
    (mask_mixer [[[1, 2], [3, 4]]] [[0, 0]]).get? 0 = some [[(0:ℚ), 0]] :=
  C10_zero_mask_row_zero_aggregate [[[1, 2], [3, 4]]] [[0, 0]] 0 2 [[1, 2], [3, 4]] [0, 0]
    rfl rfl (by simp) (by simp) (by simp) rfl
